import Mathlib

/-!
Shallow embedding of src/check_emails_split.py: a bulk email validator that
reads a CSV, checks each address for syntactic validity and for the presence
of an MX record (cached per normalized domain, with a skip list of trusted
providers), and splits the rows through a bounded thread pool into a good
and a bad output.  DNS resolution is modelled by an oracle of type Resolver
(ok means the MX query succeeded, error carries the exception kind);
unexpected per-step faults inside process_row are modelled by a fault
oracle (checkpoint 1 is the syntax step, checkpoint 2 the MX step);
the completion order of the thread pool is modelled by a pick function
that splits the in-flight list into a completed part and a still-running
part, as concurrent.futures.wait does.
-/

namespace EmailCheck

def THREADS : Nat := 50

def MAX_IN_FLIGHT : Nat := 1000

def SKIP_MX_DOMAINS : List String :=
  ["gmail.com", "yahoo.com", "hotmail.com", "outlook.com", "aol.com",
   "live.com", "icloud.com", "msn.com", "protonmail.com", "gmx.com",
   "yandex.com", "mail.com", "zoho.com"]

/-- ASCII whitespace characters removed by the strip() calls in the source. -/
def pyWS (c : Char) : Bool :=
  c == ' ' || c == '\t' || c == '\n' || c == '\r' || c == '\x0b' || c == '\x0c'

/-- Python str.strip with no argument: remove leading and trailing whitespace. -/
def pyStrip (s : String) : String :=
  (((s.toList.dropWhile pyWS).reverse.dropWhile pyWS).reverse).asString

/-- Python str.lower (the inputs of interest are ASCII). -/
def toLowerS (s : String) : String := (s.toList.map Char.toLower).asString

/-- Characters allowed by the regex in the local part: [A-Za-z0-9._%+-]. -/
def localChar (c : Char) : Bool :=
  c.isAlpha || c.isDigit || c == '.' || c == '_' || c == '%' || c == '+' || c == '-'

/-- Characters allowed by the regex in the domain part before the final label:
[A-Za-z0-9.-]. -/
def domainChar (c : Char) : Bool :=
  c.isAlpha || c.isDigit || c == '.' || c == '-'

/-- Split a character list at its last dot: some (before, after) when a dot
is present, none otherwise. -/
def splitLastDot (cs : List Char) : Option (List Char × List Char) :=
  match cs.reverse.dropWhile (fun c => ! (c == '.')) with
  | [] => none
  | _ :: ds => some (ds.reverse, (cs.reverse.takeWhile (fun c => ! (c == '.'))).reverse)

/-- The part of EMAIL_REGEX after the at sign: [A-Za-z0-9.-]+\.[A-Za-z]\x7b2,\x7d
anchored at the end.  Only the last dot of the string can separate the body
from the final all-letter label, so the greedy match is deterministic. -/
def checkDomain (dom : List Char) : Bool :=
  match splitLastDot dom with
  | some (d, t) => ! d.isEmpty && d.all domainChar && decide (2 ≤ t.length) && t.all Char.isAlpha
  | none => false

/-- EMAIL_REGEX matched against a whole character list (no trailing-newline
allowance yet).  The local-part character class excludes the at sign, so the
greedy local match stops exactly at the first at sign. -/
def isValidCore (cs : List Char) : Bool :=
  match cs.dropWhile localChar with
  | a :: dom => a == '@' && ! (cs.takeWhile localChar).isEmpty && checkDomain dom
  | [] => false

/-- Python re: the dollar anchor also matches just before one newline at the
very end of the string. -/
def dropTrailingNewline (cs : List Char) : List Char :=
  if cs.getLast? = some '\n' then cs.dropLast else cs

/-- bool(EMAIL_REGEX.match(email)) from the source. -/
def is_valid_syntax (email : String) : Bool :=
  isValidCore (dropTrailingNewline email.toList)

/-- The shared module-level domain_cache dict. -/
abbrev Cache := List (String × Bool)

/-- Oracle for dns.resolver.resolve(domain, MX, lifetime): ok when records
were found, error (with the exception kind) on timeout, NXDOMAIN, etc. -/
abbrev Resolver := String → Except String Unit

/-- Python str.rstrip with a dot argument: removes ALL trailing dots. -/
def rstripDots (s : String) : String :=
  ((s.toList.reverse.dropWhile (fun c => c == '.')).reverse).asString

/-- The normalization performed by has_mx_record:
domain.strip().lower().rstrip of dots. -/
def normalizeDomain (s : String) : String :=
  rstripDots (toLowerS (pyStrip s))

def cacheLookup (cache : Cache) (k : String) : Option Bool :=
  List.lookup k cache

def cacheInsert (k : String) (v : Bool) (cache : Cache) : Cache :=
  (k, v) :: cache

/-- Lines 68 to 73 of the source: ok is True when resolve returned, False
when it raised (timeout, NXDOMAIN, server failure, ...). -/
def resolveOk (resolver : Resolver) (d : String) : Bool :=
  match resolver d with
  | Except.ok _ => true
  | Except.error _ => false

/-- has_mx_record from the source.  Besides the verdict it returns the updated
cache and the list of DNS queries actually performed, so that theorems can
speak about resolver invocations. -/
def has_mx_record (resolver : Resolver) (cache : Cache) (domain : String) :
    Bool × Cache × List String :=
  let d := normalizeDomain domain
  match cacheLookup cache d with
  | some v => (v, cache, [])
  | none =>
    let ok := resolveOk resolver d
    (ok, cacheInsert d ok cache, [d])

/-- One cell of an output CSV row: csv.writer receives either a string or a
Python bool here. -/
inductive Field where
  | str : String → Field
  | bool : Bool → Field
deriving DecidableEq

/-- Every return site of process_row produces row + [invalid_email, syntax_ok,
mx_ok, status]; this structure records those five components. -/
structure ValidationResult where
  orig : List String
  invalid_email : String
  syntax_ok : Bool
  mx_ok : Bool
  status : String
deriving DecidableEq

/-- The list literally returned by process_row in the source. -/
def ValidationResult.toRow (r : ValidationResult) : List Field :=
  r.orig.map Field.str ++
    [Field.str r.invalid_email, Field.bool r.syntax_ok, Field.bool r.mx_ok,
     Field.str r.status]

/-- email.split at the at sign, last component: the substring after the last
at sign, or the whole string when there is none. -/
def afterLastAt (s : String) : String :=
  ((s.toList.reverse.takeWhile (fun c => ! (c == '@'))).reverse).asString

/-- Lines 89 to 92 of the source: pad short rows, then strip the email cell. -/
def emailOf (row : List String) : String :=
  if row.length ≤ 1 then "" else pyStrip (row.getD 1 "")

/-- Line 114 of the source: email.split at the at sign, take the last part,
lower it, strip it. -/
def domainOf (email : String) : String :=
  pyStrip (toLowerS (afterLastAt email))

/-- Fault oracle meaning no unexpected exception is raised anywhere. -/
def noFault : Nat → Option String := fun _ => none

/-- process_row from the source.  fault models an unexpected exception raised
at checkpoint 1 (during the syntax step) or checkpoint 2 (during the domain
and MX step); the except clause of the source turns it into an Error status,
keeping the defaults computed so far and echoing the email only when the
syntax had not been confirmed.  The returned triple also carries the updated
shared cache and the DNS queries performed. -/
def process_row (fault : Nat → Option String) (resolver : Resolver) (cache : Cache)
    (row : List String) (row_num : Nat) : ValidationResult × Cache × List String :=
  let email := emailOf row
  if email = "" then
    (⟨row, "", false, false, "Missing Email"⟩, cache, [])
  else
    match fault 1 with
    | some kind => (⟨row, email, false, false, "Error: " ++ kind⟩, cache, [])
    | none =>
      if ! is_valid_syntax email then
        (⟨row, email, false, false, "Invalid Syntax"⟩, cache, [])
      else
        match fault 2 with
        | some kind => (⟨row, "", true, false, "Error: " ++ kind⟩, cache, [])
        | none =>
          let domain := domainOf email
          if SKIP_MX_DOMAINS.contains domain then
            (⟨row, "", true, true, "Valid"⟩, cache, [])
          else
            let r := has_mx_record resolver cache domain
            (⟨row, "", true, r.1, if r.1 then "Valid" else "Invalid Domain"⟩,
             r.2.1, r.2.2)

/-- Lines 179 to 183 of the source: route one completed row on its last cell. -/
def routeRow (gb : List (List Field) × List (List Field)) (out : List Field) :
    List (List Field) × List (List Field) :=
  if out.getLast? = some (Field.str "Valid") then (gb.1 ++ [out], gb.2)
  else (gb.1, gb.2 ++ [out])

def routeAll (gb : List (List Field) × List (List Field)) (outs : List (List Field)) :
    List (List Field) × List (List Field) :=
  outs.foldl routeRow gb

/-- State of the submission loop of main: the two output files so far, the
in-flight futures (already holding their eventual results), the shared cache
and a trace of the in-flight sizes observed after every mutation. -/
structure LoopSt where
  good : List (List Field)
  bad : List (List Field)
  inFlight : List (List Field)
  cache : Cache
  trace : List Nat

/-- Lines 160 to 192 of the source: submit each row; once MAX_IN_FLIGHT
futures are pending, wait (pick chooses the completed ones), route every
completed row, and continue with the rest. -/
def submitLoop (pick : List (List Field) → List (List Field) × List (List Field))
    (fault : Nat → Option String) (resolver : Resolver) :
    List (List String) → Nat → LoopSt → LoopSt
  | [], _, st => st
  | row :: rest, n, st =>
    let pr := process_row fault resolver st.cache row n
    let inF := st.inFlight ++ [pr.1.toRow]
    if MAX_IN_FLIGHT ≤ inF.length then
      let dn := pick inF
      let gb := routeAll (st.good, st.bad) dn.1
      submitLoop pick fault resolver rest (n + 1)
        ⟨gb.1, gb.2, dn.2, pr.2.1, st.trace ++ [inF.length, dn.2.length]⟩
    else
      submitLoop pick fault resolver rest (n + 1)
        ⟨st.good, st.bad, inF, pr.2.1, st.trace ++ [inF.length]⟩

def newHeaderCols : List String :=
  ["Invalid Email", "syntax_ok", "mx_ok", "status"]

/-- The augmented header row written to both outputs. -/
def headerRowF (header : List String) : List Field :=
  (header ++ newHeaderCols).map Field.str

structure MainOut where
  good : List (List Field)
  bad : List (List Field)
  cache : Cache
  trace : List Nat

/-- main from the source.  An empty input returns immediately with nothing
written; otherwise the augmented header goes to both outputs, the submission
loop runs, and the remaining in-flight futures are drained at the end. -/
def main (pick : List (List Field) → List (List Field) × List (List Field))
    (fault : Nat → Option String) (resolver : Resolver)
    (rows : List (List String)) : MainOut :=
  match rows with
  | [] => ⟨[], [], [], []⟩
  | header :: dataRows =>
    let st1 := submitLoop pick fault resolver dataRows 2
      ⟨[headerRowF header], [headerRowF header], [], [], []⟩
    let gb := routeAll (st1.good, st1.bad) st1.inFlight
    ⟨gb.1, gb.2, st1.cache, st1.trace ++ [st1.inFlight.length]⟩

/-- Reference computation: the results of processing every data row in
submission order, threading the shared cache. -/
def processAll (fault : Nat → Option String) (resolver : Resolver) :
    List (List String) → Nat → Cache → List (List Field)
  | [], _, _ => []
  | row :: rest, n, cache =>
    let pr := process_row fault resolver cache row n
    pr.1.toRow :: processAll fault resolver rest (n + 1) pr.2.1

/-- The exact shape claim C9 describes: local part, at sign, domain body,
dot, final label of at least two letters, nothing after it. -/
def EmailShape (cs : List Char) : Prop :=
  ∃ l d t : List Char,
    cs = l ++ '@' :: (d ++ '.' :: t) ∧
    l ≠ [] ∧ l.all localChar = true ∧
    d ≠ [] ∧ d.all domainChar = true ∧
    2 ≤ t.length ∧ t.all Char.isAlpha = true

/-- Claim C6's normalization, written from the claim's words: trim
surrounding whitespace, lowercase, strip ONE trailing dot. -/
def specNormalizeOne (s : String) : String :=
  let t := toLowerS (pyStrip s)
  match t.toList.reverse with
  | '.' :: rest => rest.reverse.asString
  | _ => t

/-- A row that carries at least one Python bool cell.  Every data row does;
the header row does not, so the two can never coincide. -/
def HasBoolCell (l : List Field) : Prop :=
  ∃ b, Field.bool b ∈ l

/-- Completion oracle used by the witnesses: every in-flight future is
already completed. -/
def pickAllW : List (List Field) → List (List Field) × List (List Field) :=
  fun l => (l, [])

/-- Resolver used by the witnesses: every DNS query times out. -/
def resolverDownW : Resolver := fun _ => Except.error "Timeout"

theorem takeWhile_append_all {α : Type} (p : α → Bool) :
    ∀ (l m : List α), l.all p = true → (l ++ m).takeWhile p = l ++ m.takeWhile p
  | [], _, _ => by simp
  | a :: l, m, h => by
    simp only [List.all_cons, Bool.and_eq_true] at h
    simp only [List.cons_append, List.takeWhile_cons_of_pos h.1]
    rw [takeWhile_append_all p l m h.2]

theorem dropWhile_append_all {α : Type} (p : α → Bool) :
    ∀ (l m : List α), l.all p = true → (l ++ m).dropWhile p = m.dropWhile p
  | [], _, _ => by simp
  | a :: l, m, h => by
    simp only [List.all_cons, Bool.and_eq_true] at h
    simp only [List.cons_append, List.dropWhile_cons_of_pos h.1]
    exact dropWhile_append_all p l m h.2

theorem dropWhile_head_neg {α : Type} (p : α → Bool) :
    ∀ (l : List α) (a : α) (r : List α), l.dropWhile p = a :: r → p a = false
  | [], a, r, h => by simp [List.dropWhile] at h
  | b :: l, a, r, h => by
    by_cases hb : p b = true
    · rw [List.dropWhile_cons_of_pos hb] at h
      exact dropWhile_head_neg p l a r h
    · rw [List.dropWhile_cons_of_neg hb] at h
      cases h
      simpa using hb

theorem all_of_takeWhile {α : Type} (p : α → Bool) :
    ∀ (l : List α), (l.takeWhile p).all p = true
  | [] => by simp
  | a :: l => by
    by_cases ha : p a = true
    · rw [List.takeWhile_cons_of_pos ha]
      simp [ha, all_of_takeWhile p l]
    · rw [List.takeWhile_cons_of_neg ha]
      simp

theorem splitLastDot_eq {cs d t : List Char} (h : splitLastDot cs = some (d, t)) :
    cs = d ++ '.' :: t ∧ t.all (fun c => ! (c == '.')) = true := by
  unfold splitLastDot at h
  cases hd : cs.reverse.dropWhile (fun c => ! (c == '.')) with
  | nil => rw [hd] at h; exact absurd h (by simp)
  | cons c ds =>
    rw [hd] at h
    simp only [Option.some.injEq, Prod.mk.injEq] at h
    obtain ⟨hdeq, hteq⟩ := h
    have hc : (! (c == '.')) = false := dropWhile_head_neg _ cs.reverse c ds hd
    have hc2 : c = '.' := by
      have hb : (c == '.') = true := by
        cases hcc : (c == '.')
        · rw [hcc] at hc; simp at hc
        · rfl
      exact eq_of_beq hb
    have hsplit : cs.reverse.takeWhile (fun c => ! (c == '.')) ++ (c :: ds) = cs.reverse := by
      rw [← hd]
      exact List.takeWhile_append_dropWhile _ _
    constructor
    · have hcs : cs = (ds.reverse ++ ['.']) ++
          (cs.reverse.takeWhile (fun c => ! (c == '.'))).reverse := by
        conv_lhs => rw [← cs.reverse_reverse, ← hsplit]
        rw [List.reverse_append, List.reverse_cons, hc2]
      rw [hcs, hdeq, hteq]
      simp [List.append_assoc]
    · rw [← hteq, List.all_reverse]
      exact all_of_takeWhile _ _

theorem splitLastDot_of {d t : List Char} (ht : t.all (fun c => ! (c == '.')) = true) :
    splitLastDot (d ++ '.' :: t) = some (d, t) := by
  unfold splitLastDot
  have hrev : (d ++ '.' :: t).reverse = t.reverse ++ '.' :: d.reverse := by
    rw [List.reverse_append, List.reverse_cons]
    simp [List.append_assoc]
  have hta : t.reverse.all (fun c => ! (c == '.')) = true := by
    rw [List.all_reverse]; exact ht
  rw [hrev, dropWhile_append_all _ _ _ hta, takeWhile_append_all _ _ _ hta]
  rw [List.dropWhile_cons_of_neg (by simp), List.takeWhile_cons_of_neg (by simp)]
  simp

theorem alpha_all_ne_dot {t : List Char} (hta : t.all Char.isAlpha = true) :
    t.all (fun c => ! (c == '.')) = true := by
  rw [List.all_eq_true] at hta ⊢
  intro c hc
  have ha := hta c hc
  cases hcc : (c == '.')
  · simp
  · have : c = '.' := eq_of_beq hcc
    rw [this] at ha
    exact absurd ha (by decide)

theorem isValidCore_eq_nil {cs : List Char} (h : cs.dropWhile localChar = []) :
    isValidCore cs = false := by
  unfold isValidCore
  rw [h]

theorem isValidCore_eq_cons {cs : List Char} {a : Char} {dom : List Char}
    (h : cs.dropWhile localChar = a :: dom) :
    isValidCore cs = (a == '@' && ! (cs.takeWhile localChar).isEmpty && checkDomain dom) := by
  unfold isValidCore
  rw [h]

theorem checkDomain_eq_none {dom : List Char} (h : splitLastDot dom = none) :
    checkDomain dom = false := by
  unfold checkDomain
  rw [h]

theorem checkDomain_eq_some {dom d t : List Char} (h : splitLastDot dom = some (d, t)) :
    checkDomain dom =
      (! d.isEmpty && d.all domainChar && decide (2 ≤ t.length) && t.all Char.isAlpha) := by
  unfold checkDomain
  rw [h]

theorem isValidCore_iff_shape (cs : List Char) :
    isValidCore cs = true ↔ EmailShape cs := by
  constructor
  · intro h
    cases hd : cs.dropWhile localChar with
    | nil => rw [isValidCore_eq_nil hd] at h; simp at h
    | cons a dom =>
      rw [isValidCore_eq_cons hd] at h
      simp only [Bool.and_eq_true] at h
      obtain ⟨⟨ha, hne⟩, hcd⟩ := h
      have ha2 : a = '@' := eq_of_beq ha
      have hl : cs.takeWhile localChar ≠ [] := by
        intro h0
        rw [h0] at hne
        simp at hne
      cases hs : splitLastDot dom with
      | none => rw [checkDomain_eq_none hs] at hcd; simp at hcd
      | some dt =>
        obtain ⟨d, t⟩ := dt
        rw [checkDomain_eq_some hs] at hcd
        simp only [Bool.and_eq_true] at hcd
        obtain ⟨⟨⟨hdne, hda⟩, hlen⟩, hta⟩ := hcd
        have hdne2 : d ≠ [] := by
          intro h0
          rw [h0] at hdne
          simp at hdne
        obtain ⟨hdom, _⟩ := splitLastDot_eq hs
        have hsplit : cs.takeWhile localChar ++ (a :: dom) = cs := by
          rw [← hd]
          exact List.takeWhile_append_dropWhile _ _
        refine ⟨cs.takeWhile localChar, d, t, ?_, hl, all_of_takeWhile _ _, hdne2, hda,
          of_decide_eq_true hlen, hta⟩
        rw [ha2, hdom] at hsplit
        exact hsplit.symm
  · rintro ⟨l, d, t, hcs, hl, hd, hla, hda, hlen, hta⟩
    have hlq : ¬ localChar '@' = true := by decide
    have h1 : cs.dropWhile localChar = '@' :: (d ++ '.' :: t) := by
      rw [hcs, dropWhile_append_all _ _ _ hd, List.dropWhile_cons_of_neg hlq]
    have h2 : cs.takeWhile localChar = l := by
      rw [hcs, takeWhile_append_all _ _ _ hd, List.takeWhile_cons_of_neg hlq]
      simp
    rw [isValidCore_eq_cons h1, h2,
      checkDomain_eq_some (splitLastDot_of (alpha_all_ne_dot hta))]
    simp [hl, hla, hda, hlen, hta]

theorem shape_getLast {cs : List Char} (h : EmailShape cs) :
    ∃ c, cs.getLast? = some c ∧ c.isAlpha = true := by
  obtain ⟨l, d, t, hcs, _, _, _, _, hlen, hta⟩ := h
  have ht : t ≠ [] := by
    intro h0
    rw [h0] at hlen
    simp at hlen
  obtain ⟨c, hc⟩ : ∃ c, t.getLast? = some c := by
    cases hgl : t.getLast? with
    | none => exact absurd (List.getLast?_eq_none_iff.mp hgl) ht
    | some c => exact ⟨c, rfl⟩
  refine ⟨c, ?_, ?_⟩
  · have hcs2 : cs = (l ++ '@' :: d ++ ['.']) ++ t := by
      rw [hcs]
      simp
    rw [hcs2, List.getLast?_append, hc]
    rfl
  · have hmem : c ∈ t := List.mem_of_getLast?_eq_some hc
    rw [List.all_eq_true] at hta
    exact hta c hmem

/-- C9 counterexample: the code accepts a string with a trailing newline
(Python's dollar anchor matches just before a final newline), while the
claimed characterization requires nothing after the final label. -/
theorem c9_regex_cex :
    is_valid_syntax "a@b.co\n" = true ∧ ¬ EmailShape ("a@b.co\n".toList) := by
  constructor
  · decide
  · intro h
    obtain ⟨c, hc, ha⟩ := shape_getLast h
    have he : ("a@b.co\n".toList).getLast? = some '\n' := by decide
    rw [he] at hc
    cases hc
    exact absurd ha (by decide)

/-- C9 (amended): is_valid_syntax accepts exactly the strings of the claimed
form - local part over letters, digits and dot, underscore, percent, plus,
minus; a single at sign; a domain over letters, digits, dot, minus; a dot;
a final label of at least two letters - except that one trailing newline
after the final label is also tolerated, as Python's dollar anchor matches
just before it. -/
theorem c9_regex_amended (s : String) :
    is_valid_syntax s = true ↔ EmailShape (dropTrailingNewline s.toList) := by
  unfold is_valid_syntax
  exact isValidCore_iff_shape _

theorem error_ne_valid (k : String) : ("Error: " ++ k) ≠ "Valid" := by
  intro h
  have h2 := congrArg String.length h
  rw [String.length_append] at h2
  have e1 : "Error: ".length = 7 := rfl
  have e2 : "Valid".length = 5 := rfl
  rw [e1, e2] at h2
  omega

/-- C2: on every path of process_row - including the missing-email, bad
syntax, skip-list, cache, and fault paths - the status is Valid exactly when
both the syntax flag and the MX flag are true. -/
theorem c2_valid_iff (fault : Nat → Option String) (resolver : Resolver) (cache : Cache)
    (row : List String) (row_num : Nat) :
    ((process_row fault resolver cache row row_num).1.status = "Valid") ↔
      ((process_row fault resolver cache row row_num).1.syntax_ok = true ∧
       (process_row fault resolver cache row row_num).1.mx_ok = true) := by
  by_cases he : emailOf row = ""
  · simp [process_row, he]
  · cases hf1 : fault 1 with
    | some k => simp [process_row, he, hf1, error_ne_valid k]
    | none =>
      by_cases hs : is_valid_syntax (emailOf row) = true
      · cases hf2 : fault 2 with
        | some k => simp [process_row, he, hf1, hf2, hs, error_ne_valid k]
        | none =>
          by_cases hk : domainOf (emailOf row) ∈ SKIP_MX_DOMAINS
          · simp [process_row, he, hf1, hf2, hs, hk]
          · cases hm : (has_mx_record resolver cache (domainOf (emailOf row))).1 with
            | true => simp [process_row, he, hf1, hf2, hs, hk, hm]
            | false => simp [process_row, he, hf1, hf2, hs, hk, hm]
      · simp [process_row, he, hf1, hs]

theorem process_row_orig (fault : Nat → Option String) (resolver : Resolver) (cache : Cache)
    (row : List String) (row_num : Nat) :
    (process_row fault resolver cache row row_num).1.orig = row := by
  by_cases he : emailOf row = ""
  · simp [process_row, he]
  · cases hf1 : fault 1 with
    | some k => simp [process_row, he, hf1]
    | none =>
      by_cases hs : is_valid_syntax (emailOf row) = true
      · cases hf2 : fault 2 with
        | some k => simp [process_row, he, hf1, hf2, hs]
        | none =>
          by_cases hk : domainOf (emailOf row) ∈ SKIP_MX_DOMAINS
          · simp [process_row, he, hf1, hf2, hs, hk]
          · simp [process_row, he, hf1, hf2, hs, hk]
      · simp [process_row, he, hf1, hs]

/-- C10: on every path, also the error path, the output row is the original
fields unchanged and in order, followed by exactly the four derived cells. -/
theorem c10_frame (fault : Nat → Option String) (resolver : Resolver) (cache : Cache)
    (row : List String) (row_num : Nat) :
    (process_row fault resolver cache row row_num).1.orig = row ∧
    ∃ e s m st, ((process_row fault resolver cache row row_num).1).toRow =
      row.map Field.str ++ [Field.str e, Field.bool s, Field.bool m, Field.str st] := by
  refine ⟨process_row_orig fault resolver cache row row_num,
    (process_row fault resolver cache row row_num).1.invalid_email,
    (process_row fault resolver cache row row_num).1.syntax_ok,
    (process_row fault resolver cache row row_num).1.mx_ok,
    (process_row fault resolver cache row row_num).1.status, ?_⟩
  rw [ValidationResult.toRow, process_row_orig]

/-- C3: when an unexpected fault of kind k hits the syntax step (checkpoint 1)
or the MX step (checkpoint 2), process_row still returns a ValidationResult:
status Error with the fault kind, the syntax and MX flags as computed so far
(the MX flag still false, the syntax flag true exactly when the syntax step
had completed, i.e. when checkpoint 1 passed), and the email echoed exactly
when syntax had not been confirmed valid. -/
theorem c3_fault_isolated (fault : Nat → Option String) (resolver : Resolver) (cache : Cache)
    (row : List String) (row_num : Nat) (k : String)
    (hemail : emailOf row ≠ "")
    (h : fault 1 = some k ∨
      (fault 1 = none ∧ fault 2 = some k ∧ is_valid_syntax (emailOf row) = true)) :
    process_row fault resolver cache row row_num =
      (⟨row, if fault 1 = none then "" else emailOf row, decide (fault 1 = none), false,
        "Error: " ++ k⟩, cache, []) := by
  rcases h with h1 | ⟨h1, h2, hs⟩
  · simp [process_row, hemail, h1]
  · simp [process_row, hemail, h1, h2, hs]

theorem has_mx_record_hit (resolver : Resolver) (cache : Cache) (domain : String)
    (v : Bool) (h : cacheLookup cache (normalizeDomain domain) = some v) :
    has_mx_record resolver cache domain = (v, cache, []) := by
  simp only [has_mx_record]
  rw [h]

theorem has_mx_record_miss (resolver : Resolver) (cache : Cache) (domain : String)
    (h : cacheLookup cache (normalizeDomain domain) = none) :
    has_mx_record resolver cache domain =
      (resolveOk resolver (normalizeDomain domain),
       cacheInsert (normalizeDomain domain) (resolveOk resolver (normalizeDomain domain)) cache,
       [normalizeDomain domain]) := by
  simp only [has_mx_record]
  rw [h]

/-- C5 counterexample: gmail.com is on the skip list, yet has_mx_record called
on it with a cold cache does invoke the resolver (the query list is nonempty)
and, with a failing resolver, returns false - the short circuit is not in
has_mx_record. -/
theorem c5_skiplist_cex :
    SKIP_MX_DOMAINS.contains "gmail.com" = true ∧
    has_mx_record resolverDownW [] "gmail.com" =
      (false, [("gmail.com", false)], ["gmail.com"]) := by
  constructor
  · decide
  · decide

/-- C5 (amended): the skip-list short circuit lives in process_row, not in
has_mx_record: a record whose (syntactically valid) email is at a skip-listed
domain gets mx_ok true with no resolver query and no cache change, whatever
the resolver would answer; has_mx_record itself ignores the skip list. -/
theorem c5_skiplist_in_processor (resolver : Resolver) (cache : Cache)
    (row : List String) (row_num : Nat)
    (hemail : emailOf row ≠ "")
    (hsyn : is_valid_syntax (emailOf row) = true)
    (hdom : domainOf (emailOf row) ∈ SKIP_MX_DOMAINS) :
    process_row noFault resolver cache row row_num =
      (⟨row, "", true, true, "Valid"⟩, cache, []) := by
  simp [process_row, noFault, hemail, hsyn, hdom]

/-- C6 counterexample: the code normalizes with rstrip of dots, which removes
ALL trailing dots, not one; on the input with two trailing dots the cache key
actually used differs from the key the claim prescribes. -/
theorem c6_normalize_cex :
    normalizeDomain "example.com.." = "example.com" ∧
    specNormalizeOne "example.com.." = "example.com." ∧
    normalizeDomain "example.com.." ≠ specNormalizeOne "example.com.." ∧
    has_mx_record resolverDownW [] "example.com.." =
      (false, [("example.com", false)], ["example.com"]) := by
  refine ⟨by decide, by decide, by decide, by decide⟩

/-- C6 (amended): has_mx_record caches and looks up its verdict under the key
obtained by trimming surrounding whitespace, lowercasing, and stripping ALL
trailing dots (normalizeDomain); two inputs with the same normalized key
behave identically, on a miss the stored key and the query are the normalized
key, and in particular the three inputs of the claim map to the single key
of example.com. -/
theorem c6_normalize_amended (resolver : Resolver) (cache : Cache) (d1 d2 : String)
    (hkey : normalizeDomain d1 = normalizeDomain d2)
    (hmiss : cacheLookup cache (normalizeDomain d1) = none) :
    has_mx_record resolver cache d1 = has_mx_record resolver cache d2 ∧
    (has_mx_record resolver cache d1).2.2 = [normalizeDomain d1] ∧
    (has_mx_record resolver cache d1).2.1 =
      cacheInsert (normalizeDomain d1) (has_mx_record resolver cache d1).1 cache ∧
    normalizeDomain "Example.com." = "example.com" ∧
    normalizeDomain " example.com " = "example.com" ∧
    normalizeDomain "example.com" = "example.com" := by
  have hmiss2 : cacheLookup cache (normalizeDomain d2) = none := hkey ▸ hmiss
  have e1 := has_mx_record_miss resolver cache d1 hmiss
  have e2 := has_mx_record_miss resolver cache d2 hmiss2
  refine ⟨?_, ?_, ?_, by decide, by decide, by decide⟩
  · rw [e1, e2, hkey]
  · rw [e1]
  · rw [e1]

/-- C8: a record with fewer than two fields, or whose email cell is blank
after trimming, yields status Missing Email with both flags false and an
empty echo cell, under any fault oracle and resolver. -/
theorem c8_missing_email (fault : Nat → Option String) (resolver : Resolver) (cache : Cache)
    (row : List String) (row_num : Nat)
    (h : row.length ≤ 1 ∨ pyStrip (row.getD 1 "") = "") :
    process_row fault resolver cache row row_num =
      (⟨row, "", false, false, "Missing Email"⟩, cache, []) := by
  have he : emailOf row = "" := by
    unfold emailOf
    rcases h with h | h
    · simp [h]
    · simp only [List.getD, List.get?_eq_getElem?] at h
      by_cases hl : row.length ≤ 1 <;> simp [hl, h]
  simp [process_row, he]

theorem ms_append {α : Type} (a b : List α) :
    ((a ++ b : List α) : Multiset α) = (a : Multiset α) + (b : Multiset α) :=
  (Multiset.coe_add a b).symm

theorem ms_cons {α : Type} (x : α) (l : List α) :
    ((x :: l : List α) : Multiset α) = {x} + (l : Multiset α) := by
  rw [← Multiset.cons_coe, Multiset.singleton_add]

theorem routeRow_ms (gb : List (List Field) × List (List Field)) (o : List Field) :
    ((routeRow gb o).1 : Multiset (List Field)) + ((routeRow gb o).2 : Multiset (List Field)) =
      (gb.1 : Multiset (List Field)) + (gb.2 : Multiset (List Field)) + {o} := by
  unfold routeRow
  by_cases h : o.getLast? = some (Field.str "Valid")
  · rw [if_pos h]
    simp only [ms_append, ms_cons]
    simp only [Multiset.coe_nil]
    abel
  · rw [if_neg h]
    simp only [ms_append, ms_cons]
    simp only [Multiset.coe_nil]
    abel

theorem routeAll_ms :
    ∀ (outs : List (List Field)) (gb : List (List Field) × List (List Field)),
      ((routeAll gb outs).1 : Multiset (List Field)) +
          ((routeAll gb outs).2 : Multiset (List Field)) =
        (gb.1 : Multiset (List Field)) + (gb.2 : Multiset (List Field)) +
          (outs : Multiset (List Field))
  | [], gb => by simp [routeAll]
  | o :: outs, gb => by
    have ih := routeAll_ms outs (routeRow gb o)
    have hr := routeRow_ms gb o
    simp only [routeAll, List.foldl_cons] at ih ⊢
    rw [ih, hr, ms_cons]
    abel

theorem processAll_length (fault : Nat → Option String) (resolver : Resolver) :
    ∀ (rows : List (List String)) (n : Nat) (cache : Cache),
      (processAll fault resolver rows n cache).length = rows.length
  | [], _, _ => rfl
  | row :: rest, n, cache => by
    simp only [processAll, List.length_cons]
    rw [processAll_length fault resolver rest (n + 1) _]

theorem submitLoop_ms (pick : List (List Field) → List (List Field) × List (List Field))
    (fault : Nat → Option String) (resolver : Resolver)
    (hpick : ∀ l : List (List Field),
      ((pick l).1 : Multiset (List Field)) + ((pick l).2 : Multiset (List Field)) =
        (l : Multiset (List Field))) :
    ∀ (rows : List (List String)) (n : Nat) (st : LoopSt),
      ((submitLoop pick fault resolver rows n st).good : Multiset (List Field)) +
          ((submitLoop pick fault resolver rows n st).bad : Multiset (List Field)) +
          ((submitLoop pick fault resolver rows n st).inFlight : Multiset (List Field)) =
        (st.good : Multiset (List Field)) + (st.bad : Multiset (List Field)) +
          (st.inFlight : Multiset (List Field)) +
          (processAll fault resolver rows n st.cache : Multiset (List Field))
  | [], n, st => by simp [submitLoop, processAll]
  | row :: rest, n, st => by
    have ih := submitLoop_ms pick fault resolver hpick rest (n + 1)
    simp only [submitLoop, processAll]
    by_cases hc : MAX_IN_FLIGHT ≤
        (st.inFlight ++ [(process_row fault resolver st.cache row n).1.toRow]).length
    · rw [if_pos hc, ih]
      have hp : ((pick (st.inFlight ++ [(process_row fault resolver st.cache row n).1.toRow])).1 :
            Multiset (List Field)) +
          ((pick (st.inFlight ++ [(process_row fault resolver st.cache row n).1.toRow])).2 :
            Multiset (List Field)) =
          ((st.inFlight ++ [(process_row fault resolver st.cache row n).1.toRow] :
            List (List Field)) : Multiset (List Field)) := hpick _
      rw [routeAll_ms]
      rw [ms_append, ms_cons, Multiset.coe_nil] at hp
      rw [ms_cons]
      rw [add_assoc ((st.good : Multiset (List Field)) + (st.bad : Multiset (List Field))), hp]
      abel
    · rw [if_neg hc, ih]
      rw [ms_append, ms_cons, ms_cons, Multiset.coe_nil]
      abel

/-- C1: with any completion order that neither loses nor duplicates futures,
the two outputs together hold the two header rows plus exactly the processed
image of every data row - each input row is written exactly once, to exactly
one of the two destinations, so the output counts add up to the input count
plus the two headers. -/
theorem c1_total_coverage (pick : List (List Field) → List (List Field) × List (List Field))
    (fault : Nat → Option String) (resolver : Resolver)
    (header : List String) (dataRows : List (List String))
    (hpick : ∀ l : List (List Field),
      ((pick l).1 : Multiset (List Field)) + ((pick l).2 : Multiset (List Field)) =
        (l : Multiset (List Field))) :
    ((main pick fault resolver (header :: dataRows)).good : Multiset (List Field)) +
        ((main pick fault resolver (header :: dataRows)).bad : Multiset (List Field)) =
      headerRowF header ::ₘ headerRowF header ::ₘ
        (processAll fault resolver dataRows 2 [] : Multiset (List Field)) ∧
    (main pick fault resolver (header :: dataRows)).good.length +
        (main pick fault resolver (header :: dataRows)).bad.length =
      dataRows.length + 2 := by
  have hmain : ((main pick fault resolver (header :: dataRows)).good :
        Multiset (List Field)) +
      ((main pick fault resolver (header :: dataRows)).bad : Multiset (List Field)) =
      headerRowF header ::ₘ headerRowF header ::ₘ
        (processAll fault resolver dataRows 2 [] : Multiset (List Field)) := by
    simp only [main]
    rw [routeAll_ms]
    have hloop := submitLoop_ms pick fault resolver hpick dataRows 2
      ⟨[headerRowF header], [headerRowF header], [], [], []⟩
    rw [hloop]
    simp only [ms_cons, Multiset.coe_nil]
    rw [← Multiset.singleton_add, ← Multiset.singleton_add]
    abel
  refine ⟨hmain, ?_⟩
  have hcard := congrArg Multiset.card hmain
  simp only [Multiset.card_add, Multiset.coe_card, Multiset.card_cons] at hcard
  rw [processAll_length] at hcard
  omega

theorem pick_length (pick : List (List Field) → List (List Field) × List (List Field))
    (hpick : ∀ l : List (List Field),
      ((pick l).1 : Multiset (List Field)) + ((pick l).2 : Multiset (List Field)) =
        (l : Multiset (List Field)))
    (l : List (List Field)) : (pick l).1.length + (pick l).2.length = l.length := by
  have h := congrArg Multiset.card (hpick l)
  simpa [Multiset.card_add, Multiset.coe_card] using h

theorem submitLoop_bound (pick : List (List Field) → List (List Field) × List (List Field))
    (fault : Nat → Option String) (resolver : Resolver)
    (hpick : ∀ l : List (List Field),
      ((pick l).1 : Multiset (List Field)) + ((pick l).2 : Multiset (List Field)) =
        (l : Multiset (List Field)))
    (hne : ∀ l : List (List Field), l ≠ [] → (pick l).1 ≠ []) :
    ∀ (rows : List (List String)) (n : Nat) (st : LoopSt),
      st.inFlight.length < MAX_IN_FLIGHT →
      st.trace.all (fun x => decide (x ≤ MAX_IN_FLIGHT)) = true →
      ((submitLoop pick fault resolver rows n st).trace.all
          (fun x => decide (x ≤ MAX_IN_FLIGHT)) = true ∧
        (submitLoop pick fault resolver rows n st).inFlight.length < MAX_IN_FLIGHT)
  | [], n, st => by
    intro h1 h2
    exact ⟨h2, h1⟩
  | row :: rest, n, st => by
    intro h1 h2
    simp only [submitLoop]
    have hlen : (st.inFlight ++ [(process_row fault resolver st.cache row n).1.toRow]).length =
        st.inFlight.length + 1 := by
      simp
    by_cases hc : MAX_IN_FLIGHT ≤
        (st.inFlight ++ [(process_row fault resolver st.cache row n).1.toRow]).length
    · rw [if_pos hc]
      have hplen := pick_length pick hpick
        (st.inFlight ++ [(process_row fault resolver st.cache row n).1.toRow])
      have hpne : (pick (st.inFlight ++
          [(process_row fault resolver st.cache row n).1.toRow])).1 ≠ [] := by
        apply hne
        intro h0
        rw [h0] at hlen
        simp at hlen
      have hp1 : 1 ≤ (pick (st.inFlight ++
          [(process_row fault resolver st.cache row n).1.toRow])).1.length := by
        cases hp : (pick (st.inFlight ++
            [(process_row fault resolver st.cache row n).1.toRow])).1 with
        | nil => exact absurd hp hpne
        | cons a l => simp [hp]
      have hx : ∀ (a b : Nat), a ≤ MAX_IN_FLIGHT → b ≤ MAX_IN_FLIGHT →
          (st.trace ++ [a, b]).all (fun x => decide (x ≤ MAX_IN_FLIGHT)) = true := by
        intro a b ha hb
        simp [List.all_append, h2, ha, hb]
      refine submitLoop_bound pick fault resolver hpick hne rest (n + 1) _ ?_ ?_
      · show (pick (st.inFlight ++
            [(process_row fault resolver st.cache row n).1.toRow])).2.length < MAX_IN_FLIGHT
        omega
      · exact hx _ _ (by omega) (by omega)
    · rw [if_neg hc]
      have hx : ∀ (a : Nat), a ≤ MAX_IN_FLIGHT →
          (st.trace ++ [a]).all (fun x => decide (x ≤ MAX_IN_FLIGHT)) = true := by
        intro a ha
        simp [List.all_append, h2, ha]
      refine submitLoop_bound pick fault resolver hpick hne rest (n + 1) _ ?_ ?_
      · show (st.inFlight ++
            [(process_row fault resolver st.cache row n).1.toRow]).length < MAX_IN_FLIGHT
        omega
      · exact hx _ (by omega)

theorem pick_mem_1 (pick : List (List Field) → List (List Field) × List (List Field))
    (hpick : ∀ l : List (List Field),
      ((pick l).1 : Multiset (List Field)) + ((pick l).2 : Multiset (List Field)) =
        (l : Multiset (List Field)))
    (l : List (List Field)) (x : List Field) (hx : x ∈ (pick l).1) : x ∈ l := by
  have h : x ∈ ((pick l).1 : Multiset (List Field)) + ((pick l).2 : Multiset (List Field)) := by
    rw [Multiset.mem_add]
    exact Or.inl (Multiset.mem_coe.mpr hx)
  rw [hpick l] at h
  exact Multiset.mem_coe.mp h

theorem pick_mem_2 (pick : List (List Field) → List (List Field) × List (List Field))
    (hpick : ∀ l : List (List Field),
      ((pick l).1 : Multiset (List Field)) + ((pick l).2 : Multiset (List Field)) =
        (l : Multiset (List Field)))
    (l : List (List Field)) (x : List Field) (hx : x ∈ (pick l).2) : x ∈ l := by
  have h : x ∈ ((pick l).1 : Multiset (List Field)) + ((pick l).2 : Multiset (List Field)) := by
    rw [Multiset.mem_add]
    exact Or.inr (Multiset.mem_coe.mpr hx)
  rw [hpick l] at h
  exact Multiset.mem_coe.mp h

theorem head?_append_left {α : Type} {l : List α} (l2 : List α) (h : l ≠ []) :
    (l ++ l2).head? = l.head? := by
  cases l with
  | nil => exact absurd rfl h
  | cons a t => rfl

theorem toRow_ne_header (header : List String) (r : ValidationResult) :
    headerRowF header ≠ r.toRow := by
  intro h
  have hb : Field.bool r.syntax_ok ∈ r.toRow := by
    unfold ValidationResult.toRow
    simp
  rw [← h] at hb
  unfold headerRowF at hb
  rcases List.mem_map.mp hb with ⟨s, _, hs⟩
  exact Field.noConfusion hs

theorem routeAll_header (hF : List Field) :
    ∀ (outs : List (List Field)) (gb : List (List Field) × List (List Field)),
      (∀ x ∈ outs, hF ≠ x) → gb.1 ≠ [] → gb.2 ≠ [] →
      ((routeAll gb outs).1.head? = gb.1.head? ∧
        (routeAll gb outs).2.head? = gb.2.head? ∧
        (routeAll gb outs).1.count hF = gb.1.count hF ∧
        (routeAll gb outs).2.count hF = gb.2.count hF ∧
        (routeAll gb outs).1 ≠ [] ∧ (routeAll gb outs).2 ≠ [])
  | [], gb => by
    intro _ h1 h2
    exact ⟨rfl, rfl, rfl, rfl, h1, h2⟩
  | o :: outs, gb => by
    intro hall h1 h2
    have ho : hF ≠ o := hall o (by simp)
    have hco : List.count hF [o] = 0 := by
      rw [List.count_singleton]
      have hbo : (o == hF) = false := by
        cases hb : (o == hF)
        · rfl
        · exact absurd (eq_of_beq hb).symm ho
      rw [hbo]
      rfl
    have hrest : ∀ x ∈ outs, hF ≠ x := fun x hx => hall x (by simp [hx])
    have hr1 : (routeRow gb o).1.head? = gb.1.head? ∧ (routeRow gb o).2.head? = gb.2.head? ∧
        (routeRow gb o).1.count hF = gb.1.count hF ∧
        (routeRow gb o).2.count hF = gb.2.count hF ∧
        (routeRow gb o).1 ≠ [] ∧ (routeRow gb o).2 ≠ [] := by
      unfold routeRow
      by_cases h : o.getLast? = some (Field.str "Valid")
      · rw [if_pos h]
        refine ⟨head?_append_left [o] h1, rfl, ?_, rfl, by simp [h1], h2⟩
        rw [List.count_append, hco]
        simp
      · rw [if_neg h]
        refine ⟨rfl, head?_append_left [o] h2, rfl, ?_, h1, by simp [h2]⟩
        rw [List.count_append, hco]
        simp
    have ih := routeAll_header hF outs (routeRow gb o) hrest hr1.2.2.2.2.1 hr1.2.2.2.2.2
    simp only [routeAll, List.foldl_cons] at ih ⊢
    exact ⟨ih.1.trans hr1.1, ih.2.1.trans hr1.2.1, ih.2.2.1.trans hr1.2.2.1,
      ih.2.2.2.1.trans hr1.2.2.2.1, ih.2.2.2.2⟩

theorem submitLoop_header (pick : List (List Field) → List (List Field) × List (List Field))
    (fault : Nat → Option String) (resolver : Resolver)
    (hpick : ∀ l : List (List Field),
      ((pick l).1 : Multiset (List Field)) + ((pick l).2 : Multiset (List Field)) =
        (l : Multiset (List Field)))
    (hF : List Field) (hFne : ∀ r : ValidationResult, hF ≠ r.toRow) :
    ∀ (rows : List (List String)) (n : Nat) (st : LoopSt),
      st.good.head? = some hF → st.bad.head? = some hF →
      st.good.count hF = 1 → st.bad.count hF = 1 →
      (∀ x ∈ st.inFlight, hF ≠ x) →
      ((submitLoop pick fault resolver rows n st).good.head? = some hF ∧
        (submitLoop pick fault resolver rows n st).bad.head? = some hF ∧
        (submitLoop pick fault resolver rows n st).good.count hF = 1 ∧
        (submitLoop pick fault resolver rows n st).bad.count hF = 1 ∧
        (∀ x ∈ (submitLoop pick fault resolver rows n st).inFlight, hF ≠ x))
  | [], n, st => by
    intro a b c d e
    exact ⟨a, b, c, d, e⟩
  | row :: rest, n, st => by
    intro hg hb hcg hcb hin
    simp only [submitLoop]
    have hgne : st.good ≠ [] := by
      intro h0
      rw [h0] at hg
      simp at hg
    have hbne : st.bad ≠ [] := by
      intro h0
      rw [h0] at hb
      simp at hb
    have hinF : ∀ x ∈ st.inFlight ++ [(process_row fault resolver st.cache row n).1.toRow],
        hF ≠ x := by
      intro x hx
      rcases List.mem_append.mp hx with hx | hx
      · exact hin x hx
      · have hx2 := List.mem_singleton.mp hx
        rw [hx2]
        exact hFne _
    by_cases hc : MAX_IN_FLIGHT ≤
        (st.inFlight ++ [(process_row fault resolver st.cache row n).1.toRow]).length
    · rw [if_pos hc]
      have hdone : ∀ x ∈ (pick (st.inFlight ++
          [(process_row fault resolver st.cache row n).1.toRow])).1, hF ≠ x :=
        fun x hx => hinF x (pick_mem_1 pick hpick _ x hx)
      have hnot : ∀ x ∈ (pick (st.inFlight ++
          [(process_row fault resolver st.cache row n).1.toRow])).2, hF ≠ x :=
        fun x hx => hinF x (pick_mem_2 pick hpick _ x hx)
      have hra := routeAll_header hF (pick (st.inFlight ++
          [(process_row fault resolver st.cache row n).1.toRow])).1 (st.good, st.bad)
        hdone hgne hbne
      refine submitLoop_header pick fault resolver hpick hF hFne rest (n + 1) _
        ?_ ?_ ?_ ?_ hnot
      · exact hra.1.trans hg
      · exact hra.2.1.trans hb
      · exact hra.2.2.1.trans hcg
      · exact hra.2.2.2.1.trans hcb
    · rw [if_neg hc]
      exact submitLoop_header pick fault resolver hpick hF hFne rest (n + 1) _
        hg hb hcg hcb hinF

/-- C7 counterexample: on an empty input main returns before writing anything,
so neither output receives the augmented header, contradicting the claim for
the empty file. -/
theorem c7_empty_input_cex :
    (main pickAllW noFault resolverDownW []).good = [] ∧
    (main pickAllW noFault resolverDownW []).bad = [] :=
  ⟨rfl, rfl⟩

/-- C7 (amended): for every NONEMPTY input, the augmented header is the first
row of both outputs and occurs exactly once in each; an empty input instead
terminates gracefully with both outputs left empty, no header written. -/
theorem c7_header_amended
    (pick : List (List Field) → List (List Field) × List (List Field))
    (fault : Nat → Option String) (resolver : Resolver)
    (header : List String) (dataRows : List (List String))
    (hpick : ∀ l : List (List Field),
      ((pick l).1 : Multiset (List Field)) + ((pick l).2 : Multiset (List Field)) =
        (l : Multiset (List Field))) :
    (main pick fault resolver (header :: dataRows)).good.head? = some (headerRowF header) ∧
    (main pick fault resolver (header :: dataRows)).bad.head? = some (headerRowF header) ∧
    (main pick fault resolver (header :: dataRows)).good.count (headerRowF header) = 1 ∧
    (main pick fault resolver (header :: dataRows)).bad.count (headerRowF header) = 1 := by
  have hloop := submitLoop_header pick fault resolver hpick (headerRowF header)
    (toRow_ne_header header) dataRows 2
    ⟨[headerRowF header], [headerRowF header], [], [], []⟩
    rfl rfl (by simp) (by simp) (by simp)
  have hgne : (submitLoop pick fault resolver dataRows 2
      ⟨[headerRowF header], [headerRowF header], [], [], []⟩).good ≠ [] := by
    intro h0
    have := hloop.1
    rw [h0] at this
    simp at this
  have hbne : (submitLoop pick fault resolver dataRows 2
      ⟨[headerRowF header], [headerRowF header], [], [], []⟩).bad ≠ [] := by
    intro h0
    have := hloop.2.1
    rw [h0] at this
    simp at this
  have hra := routeAll_header (headerRowF header)
    (submitLoop pick fault resolver dataRows 2
      ⟨[headerRowF header], [headerRowF header], [], [], []⟩).inFlight
    ((submitLoop pick fault resolver dataRows 2
      ⟨[headerRowF header], [headerRowF header], [], [], []⟩).good,
     (submitLoop pick fault resolver dataRows 2
      ⟨[headerRowF header], [headerRowF header], [], [], []⟩).bad)
    hloop.2.2.2.2 hgne hbne
  simp only [main]
  exact ⟨hra.1.trans hloop.1, hra.2.1.trans hloop.2.1,
    hra.2.2.1.trans hloop.2.2.1, hra.2.2.2.1.trans hloop.2.2.2.1⟩

/-- C4: under any completion oracle that returns a nonempty completed set
when futures are pending (as concurrent.futures.wait with FIRST_COMPLETED
does) and loses no future, every in-flight size ever observed by the loop -
after each submission and after each drain, and at the final drain - is at
most MAX_IN_FLIGHT. -/
theorem c4_backpressure_bound
    (pick : List (List Field) → List (List Field) × List (List Field))
    (fault : Nat → Option String) (resolver : Resolver) (rows : List (List String))
    (hpick : ∀ l : List (List Field),
      ((pick l).1 : Multiset (List Field)) + ((pick l).2 : Multiset (List Field)) =
        (l : Multiset (List Field)))
    (hne : ∀ l : List (List Field), l ≠ [] → (pick l).1 ≠ []) :
    (main pick fault resolver rows).trace.all
      (fun x => decide (x ≤ MAX_IN_FLIGHT)) = true := by
  cases rows with
  | nil => rfl
  | cons header dataRows =>
    simp only [main]
    have hloop := submitLoop_bound pick fault resolver hpick hne dataRows 2
      ⟨[headerRowF header], [headerRowF header], [], [], []⟩ (by simp [MAX_IN_FLIGHT]) rfl
    simp only [List.all_append, List.all_cons, List.all_nil, Bool.and_eq_true]
    refine ⟨hloop.1, ?_, by simp⟩
    simp only [decide_eq_true_eq]
    omega

theorem c1_total_coverage_w :
    ((main pickAllW noFault resolverDownW [["Name", "Email"], ["Bob", "not-an-email"]]).good :
          Multiset (List Field)) +
        ((main pickAllW noFault resolverDownW [["Name", "Email"], ["Bob", "not-an-email"]]).bad :
          Multiset (List Field)) =
      headerRowF ["Name", "Email"] ::ₘ headerRowF ["Name", "Email"] ::ₘ
        (processAll noFault resolverDownW [["Bob", "not-an-email"]] 2 [] :
          Multiset (List Field)) ∧
    (main pickAllW noFault resolverDownW
          [["Name", "Email"], ["Bob", "not-an-email"]]).good.length +
        (main pickAllW noFault resolverDownW
          [["Name", "Email"], ["Bob", "not-an-email"]]).bad.length =
      [["Bob", "not-an-email"]].length + 2 :=
  c1_total_coverage pickAllW noFault resolverDownW ["Name", "Email"]
    [["Bob", "not-an-email"]] (fun l => by simp [pickAllW])

theorem c3_fault_isolated_w :
    process_row (fun i => if i = 1 then some "ValueError" else none) resolverDownW []
        ["Ann", "ann@example.com"] 2 =
      (⟨["Ann", "ann@example.com"], "ann@example.com", false, false,
        "Error: ValueError"⟩, [], []) := by
  have h := c3_fault_isolated (fun i => if i = 1 then some "ValueError" else none)
    resolverDownW [] ["Ann", "ann@example.com"] 2 "ValueError" (by decide) (Or.inl rfl)
  rw [h]
  decide

theorem c4_backpressure_bound_w :
    (main pickAllW noFault resolverDownW [["Name", "Email"], ["Bob", "not-an-email"]]).trace.all
      (fun x => decide (x ≤ MAX_IN_FLIGHT)) = true :=
  c4_backpressure_bound pickAllW noFault resolverDownW
    [["Name", "Email"], ["Bob", "not-an-email"]] (fun l => by simp [pickAllW])
    (fun l h => by simpa [pickAllW] using h)

theorem c5_skiplist_in_processor_w :
    process_row noFault resolverDownW [] ["Alice", "alice@gmail.com"] 2 =
      (⟨["Alice", "alice@gmail.com"], "", true, true, "Valid"⟩, [], []) :=
  c5_skiplist_in_processor resolverDownW [] ["Alice", "alice@gmail.com"] 2
    (by decide) (by decide) (by decide)

theorem c6_normalize_amended_w :
    has_mx_record resolverDownW [] "Example.com." =
        has_mx_record resolverDownW [] " example.com " ∧
    (has_mx_record resolverDownW [] "Example.com.").2.2 =
        [normalizeDomain "Example.com."] ∧
    (has_mx_record resolverDownW [] "Example.com.").2.1 =
        cacheInsert (normalizeDomain "Example.com.")
          (has_mx_record resolverDownW [] "Example.com.").1 [] ∧
    normalizeDomain "Example.com." = "example.com" ∧
    normalizeDomain " example.com " = "example.com" ∧
    normalizeDomain "example.com" = "example.com" :=
  c6_normalize_amended resolverDownW [] "Example.com." " example.com "
    (by decide) (by decide)

theorem c7_header_amended_w :
    (main pickAllW noFault resolverDownW
        [["Name", "Email"], ["Bob", "not-an-email"]]).good.head? =
      some (headerRowF ["Name", "Email"]) ∧
    (main pickAllW noFault resolverDownW
        [["Name", "Email"], ["Bob", "not-an-email"]]).bad.head? =
      some (headerRowF ["Name", "Email"]) ∧
    (main pickAllW noFault resolverDownW
        [["Name", "Email"], ["Bob", "not-an-email"]]).good.count
      (headerRowF ["Name", "Email"]) = 1 ∧
    (main pickAllW noFault resolverDownW
        [["Name", "Email"], ["Bob", "not-an-email"]]).bad.count
      (headerRowF ["Name", "Email"]) = 1 :=
  c7_header_amended pickAllW noFault resolverDownW ["Name", "Email"]
    [["Bob", "not-an-email"]] (fun l => by simp [pickAllW])

theorem c8_missing_email_w :
    process_row noFault resolverDownW [] ["onlyone"] 2 =
      (⟨["onlyone"], "", false, false, "Missing Email"⟩, [], []) :=
  c8_missing_email noFault resolverDownW [] ["onlyone"] 2 (Or.inl (by decide))

end EmailCheck
